import Mathlib

/-!
Verification of the google-font-installer core pipeline.

This file gives a shallow embedding, in Lean, of the catalog loader, the
search engine, the cache store, the HTTP transport redirect logic, the
variant normalization, the download-validation step, and the per-variant
batch orchestration of the repository, and proves (or refutes) the stated
properties of the specification against these definitions.

Conventions:
* JavaScript strings are Lean `String`; the JS string operations used by the
  source (toLowerCase, trim, split, indexOf) are re-implemented here over the
  underlying character lists so that every definition is executable.
* Network and filesystem effects are abstracted as oracle functions passed as
  parameters (a response per URL, a fetch outcome per download), which is
  sound because the source performs these calls sequentially.
* Machine integers are `Int`/`Nat`; the only arithmetic is millisecond
  timestamps, far below any overflow boundary.
-/

namespace GFI

/-- JS `String.prototype.toLowerCase` (the ASCII mapping used by the source),
acting on the underlying character list. -/
def toLowerStr (s : String) : String := ⟨s.data.map Char.toLower⟩

/-- JS `String.prototype.trim`: strip leading and trailing whitespace. -/
def trimStr (s : String) : String :=
  ⟨((s.data.dropWhile Char.isWhitespace).reverse.dropWhile Char.isWhitespace).reverse⟩

/-- Worker for `splitChar`: accumulates the current field (reversed). -/
def splitCharAux (sep : Char) : List Char → List Char → List String
  | [], acc => [⟨acc.reverse⟩]
  | c :: rest, acc =>
    if c == sep then ⟨acc.reverse⟩ :: splitCharAux sep rest []
    else splitCharAux sep rest (c :: acc)

/-- JS `String.prototype.split` with a one-character separator: keeps the
empty fields produced by leading, trailing or doubled separators, and maps
the empty string to `[""]`. -/
def splitChar (sep : Char) (s : String) : List String := splitCharAux sep s.data []

/-- Character-list test used by `subIn`: does the second list start with the
first one. -/
def listPre : List Char → List Char → Bool
  | [], _ => true
  | _ :: _, [] => false
  | a :: as, b :: bs => a == b && listPre as bs

/-- Does `needle` occur as a contiguous run inside the second list. -/
def subIn (needle : List Char) : List Char → Bool
  | [] => listPre needle []
  | c :: rest => listPre needle (c :: rest) || subIn needle rest

/-- JS `s.indexOf(sub) !== -1`: substring containment (the empty string is
contained in everything, as in JS where `indexOf("")` is `0`). -/
def strContainsSub (s sub : String) : Bool := subIn sub.data s.data

/-- From `src/lib/google-font.js`, `googleFont.prototype._normalizeVariant`:
lowercase and trim, map the weight-400 aliases to the upstream labels, pass
everything else through. -/
def normalizeVariant (variant : String) : String :=
  let v := toLowerStr (trimStr variant)
  if v = "400" ∨ v = "normal" then "regular"
  else if v = "400italic" ∨ v = "normalitalic" then "italic"
  else v

/-- One catalog record as the search engine sees it: `family` is always a
string (possibly empty), `category` may be absent (JS `undefined`). -/
structure CatalogEntry where
  family : String
  category : Option String
  deriving Repr, DecidableEq

/-- The two field names the list code ever indexes dynamically
(`el[field]` with `field` being `family` or `category`). -/
inductive SearchField
  | family
  | category
  deriving Repr, DecidableEq

/-- JS `el[field] || ''`: a missing value reads as the empty string. -/
def fieldVal (e : CatalogEntry) : SearchField → String
  | SearchField.family => e.family
  | SearchField.category => e.category.getD ""

/-- From `src/lib/google-font-list.js`, `GoogleFontList.prototype.getFirst`:
`this.data.length > 0 ? this.data[0] : false`. The JS function returns either
an entry or the boolean value `false`, modelled as a sum. -/
def getFirst (data : List CatalogEntry) : CatalogEntry ⊕ Bool :=
  match data with
  | [] => Sum.inr false
  | e :: _ => Sum.inl e

/-- C9: variant normalization lowercases and trims, maps the tokens 400 and
normal to regular and the tokens 400italic and normalitalic to italic, and
passes every other token through unchanged; in particular the four concrete
examples of the specification hold. -/
theorem C9_normalize_variant :
    (normalizeVariant "400" = "regular" ∧ normalizeVariant "400italic" = "italic" ∧
      normalizeVariant "700" = "700" ∧ normalizeVariant "  Regular  " = "regular" ∧
      normalizeVariant "normal" = "regular" ∧ normalizeVariant "normalitalic" = "italic") ∧
    (∀ s : String, (toLowerStr (trimStr s) = "400" ∨ toLowerStr (trimStr s) = "normal") →
      normalizeVariant s = "regular") ∧
    (∀ s : String,
      (toLowerStr (trimStr s) = "400italic" ∨ toLowerStr (trimStr s) = "normalitalic") →
      normalizeVariant s = "italic") ∧
    (∀ s : String, toLowerStr (trimStr s) ≠ "400" → toLowerStr (trimStr s) ≠ "normal" →
      toLowerStr (trimStr s) ≠ "400italic" → toLowerStr (trimStr s) ≠ "normalitalic" →
      normalizeVariant s = toLowerStr (trimStr s)) := by
  refine ⟨by decide, ?_, ?_, ?_⟩
  · intro s h
    simp only [normalizeVariant, if_pos h]
  · intro s h
    have hne : ¬ (toLowerStr (trimStr s) = "400" ∨ toLowerStr (trimStr s) = "normal") := by
      rcases h with h | h <;> rw [h] <;> decide
    simp only [normalizeVariant, if_neg hne, if_pos h]
  · intro s h1 h2 h3 h4
    have hne1 : ¬ (toLowerStr (trimStr s) = "400" ∨ toLowerStr (trimStr s) = "normal") := by
      intro h; rcases h with h | h <;> [exact h1 h; exact h2 h]
    have hne2 : ¬ (toLowerStr (trimStr s) = "400italic" ∨
        toLowerStr (trimStr s) = "normalitalic") := by
      intro h; rcases h with h | h <;> [exact h3 h; exact h4 h]
    simp only [normalizeVariant, if_neg hne1, if_neg hne2]

/-- Witness for C9: the general clauses applied at concrete inputs. -/
theorem C9_normalize_variant_witness :
    normalizeVariant "  400 " = "regular" ∧ normalizeVariant "Bold" = "bold" := by
  refine ⟨C9_normalize_variant.2.1 "  400 " (by decide), ?_⟩
  have h := C9_normalize_variant.2.2.2 "Bold" (by decide) (by decide) (by decide) (by decide)
  rw [h]; decide

/-- C10: getFirst returns the first entry of a non-empty view and the boolean
value false (not null, not an exception) on an empty view. -/
theorem C10_get_first :
    (∀ (e : CatalogEntry) (rest : List CatalogEntry), getFirst (e :: rest) = Sum.inl e) ∧
    getFirst [] = Sum.inr false := by
  exact ⟨fun e rest => rfl, rfl⟩

/-- Node `path.parse(p).ext` for ordinary file names: the extension (with its
dot) of the last path segment, empty when the segment has no dot or is a
dotfile whose only dot is the leading one. -/
def parseExt (p : String) : String :=
  let base := (splitChar '/' p).getLastD ""
  let parts := splitChar '.' base
  if parts.length ≤ 1 then ""
  else if parts.length = 2 ∧ parts.headD "" = "" then ""
  else "." ++ parts.getLastD ""

/-- From `src/lib/system-font.js`, `_saveTmp`: the acceptance test run when a
download finishes. `mime` is the sniffed content-type (`download.getMimeType()`,
absent when sniffing failed or produced nothing); the extension is taken from
the staged file path and lowercased. -/
def isValidFontFile (mime : Option String) (filePath : String) : Bool :=
  let ext := toLowerStr (parseExt filePath)
  (match mime with
    | some m => m == "application/font-sfnt" || m == "font/woff2"
    | none => false)
  || (ext == ".ttf" || ext == ".woff2")

/-- Outcome of the finish handler of `_saveTmp`: either the staged path is
resolved, or the staged file is unlinked and the promise is rejected with the
error message `Downloaded file is corrupted`. -/
inductive SaveTmpOutcome
  | resolved (path : String)
  | corruptedDeleted
  deriving Repr, DecidableEq

/-- From `src/lib/system-font.js`, `_saveTmp` finish handler: accept the file
iff `isValidFontFile`; otherwise delete it and fail the variant. -/
def saveTmpFinish (mime : Option String) (filePath : String) : SaveTmpOutcome :=
  if isValidFontFile mime filePath then SaveTmpOutcome.resolved filePath
  else SaveTmpOutcome.corruptedDeleted

/-- C6: a downloaded staging file is accepted iff its sniffed content-type is
the font-sfnt application MIME type or the WOFF2 font MIME type, or its
lowercased extension is .ttf or .woff2; every file accepted neither way is
deleted and its retrieval fails as corrupted (the only two outcomes). -/
theorem C6_download_validation :
    ∀ (mime : Option String) (filePath : String),
      (saveTmpFinish mime filePath = SaveTmpOutcome.resolved filePath ↔
        (mime = some "application/font-sfnt" ∨ mime = some "font/woff2" ∨
          toLowerStr (parseExt filePath) = ".ttf" ∨
          toLowerStr (parseExt filePath) = ".woff2")) ∧
      (saveTmpFinish mime filePath = SaveTmpOutcome.resolved filePath ∨
        saveTmpFinish mime filePath = SaveTmpOutcome.corruptedDeleted) := by
  intro mime filePath
  have hb : isValidFontFile mime filePath = true ↔
      (mime = some "application/font-sfnt" ∨ mime = some "font/woff2" ∨
        toLowerStr (parseExt filePath) = ".ttf" ∨
        toLowerStr (parseExt filePath) = ".woff2") := by
    rcases mime with _ | m <;> simp [isValidFontFile, Bool.or_eq_true, beq_iff_eq]
    tauto
  refine ⟨⟨?_, ?_⟩, ?_⟩
  · intro hr
    unfold saveTmpFinish at hr
    split at hr
    · next h => exact hb.mp h
    · cases hr
  · intro hp
    unfold saveTmpFinish
    rw [if_pos (hb.mpr hp)]
  · unfold saveTmpFinish
    split
    · exact Or.inl rfl
    · exact Or.inr rfl

/-- From `src/lib/cache.js`: the cache TTL, 24 hours in milliseconds. -/
def CACHE_TTL_MS : Int := 24 * 60 * 60 * 1000

/-- A field of the parsed cache payload, as the validation in `readCache`
distinguishes it: a JSON array (only relevant for `fonts`), a JSON number
(only relevant for `fetchedAt`), or anything else including a missing key. -/
inductive JField
  | jarr (fonts : List String)
  | jnum (n : Int)
  | jother
  deriving Repr, DecidableEq

/-- The two fields `readCache` inspects on the parsed payload object. -/
structure ParsedPayload where
  fonts : JField
  fetchedAt : JField
  deriving Repr, DecidableEq

/-- The possible states of the on-disk cache file as seen by `readCache`:
the read or the JSON parse throws (missing or unreadable or unparsable file),
the parse yields a falsy value (`!parsed` in the source), or it yields an
object with the two inspected fields. -/
inductive CacheReadInput
  | unreadable
  | falsyParse
  | payload (p : ParsedPayload)
  deriving Repr, DecidableEq

/-- From `src/lib/cache.js`, `readCache`, with the ambient clock passed
explicitly: any failure or structural mismatch yields `none` (JS `null`); a
well-typed payload within the TTL yields the stored fonts array. -/
def readCache (input : CacheReadInput) (now : Int) : Option (List String) :=
  match input with
  | CacheReadInput.unreadable => none
  | CacheReadInput.falsyParse => none
  | CacheReadInput.payload p =>
    match p.fonts, p.fetchedAt with
    | JField.jarr fonts, JField.jnum fetchedAt =>
      if now - fetchedAt > CACHE_TTL_MS then none else some fonts
    | _, _ => none

/-- C7: read() is absent for a missing or unparsable file, for a structurally
invalid payload, and for an expired one (age over 86,400,000 ms); for a
well-typed payload within the TTL it returns exactly the stored fonts array. -/
theorem C7_cache_read :
    CACHE_TTL_MS = 86400000 ∧
    (∀ now : Int, readCache CacheReadInput.unreadable now = none ∧
      readCache CacheReadInput.falsyParse now = none) ∧
    (∀ (now : Int) (p : ParsedPayload),
      (∀ (fonts : List String) (fa : Int), p ≠ ⟨JField.jarr fonts, JField.jnum fa⟩) →
      readCache (CacheReadInput.payload p) now = none) ∧
    (∀ (now fa : Int) (fonts : List String), now - fa > 86400000 →
      readCache (CacheReadInput.payload ⟨JField.jarr fonts, JField.jnum fa⟩) now = none) ∧
    (∀ (now fa : Int) (fonts : List String), now - fa ≤ 86400000 →
      readCache (CacheReadInput.payload ⟨JField.jarr fonts, JField.jnum fa⟩) now =
        some fonts) := by
  refine ⟨by decide, fun now => ⟨rfl, rfl⟩, ?_, ?_, ?_⟩
  · intro now p hp
    obtain ⟨f, t⟩ := p
    cases f with
    | jarr fonts =>
      cases t with
      | jarr l => rfl
      | jnum fa => exact absurd rfl (hp fonts fa)
      | jother => rfl
    | jnum n => rfl
    | jother => rfl
  · intro now fa fonts h
    simp only [readCache, CACHE_TTL_MS]
    rw [if_pos (by omega)]
  · intro now fa fonts h
    simp only [readCache, CACHE_TTL_MS]
    rw [if_neg (by omega)]

/-- Witness for C7: the general clauses applied at concrete payloads. -/
theorem C7_cache_read_witness :
    readCache (CacheReadInput.payload ⟨JField.jother, JField.jnum 0⟩) 0 = none ∧
    readCache (CacheReadInput.payload ⟨JField.jarr ["a"], JField.jnum 0⟩) 86400001 = none ∧
    readCache (CacheReadInput.payload ⟨JField.jarr ["a"], JField.jnum 0⟩) 86400000 =
      some ["a"] := by
  refine ⟨?_, ?_, ?_⟩
  · exact C7_cache_read.2.2.1 0 ⟨JField.jother, JField.jnum 0⟩
      (fun fonts fa h => by cases h)
  · exact C7_cache_read.2.2.2.1 86400001 0 ["a"] (by decide)
  · exact C7_cache_read.2.2.2.2 86400000 0 ["a"] (by decide)

/-- One record per successfully retrieved-and-placed variant
(`{ family, variant, path }` in the source). -/
structure FontResult where
  family : String
  variant : String
  path : String
  deriving Repr, DecidableEq

/-- Outcome of one `systemFont.saveAt` / `systemFont.install` call: the
resolved placement path, or a thrown error with its message. -/
inductive FetchOutcome
  | ok (path : String)
  | fail (msg : String)
  deriving Repr, DecidableEq

/-- Outcome of a whole batch: normal return, a plain thrown error, or a
thrown AggregateError that carries the failure count (the message is
`Failed to save N variant(s)`) and the partial results attached to it. -/
inductive BatchOutcome
  | ok (results : List FontResult)
  | err (msg : String)
  | aggErr (failCount : Nat) (results : List FontResult)
  deriving Repr, DecidableEq

/-- JS `(variants && variants.length) ? variants : Object.keys(fileList)`:
the working variant set is the explicitly requested list when present and
non-empty, else every key of the file map. -/
def requestedOf (fileMap : List (String × String)) (variants : Option (List String)) :
    List String :=
  match variants with
  | some vs => if vs = [] then fileMap.map Prod.fst else vs
  | none => fileMap.map Prod.fst

/-- From `src/lib/google-font.js`, the loop body of `saveAtAsync`: walk the
requested variants in order, look the normalized id up in the file map, skip
silently when absent (or when the mapped URL is falsy), record the result of
a successful placement (when the resolved path is truthy), and collect the
message of a failed one without stopping. `fetch url fileName` stands for
`await systemFont.saveAt(url, dest, fileName)`. -/
def saveAtAux (family fileStem : String) (fileMap : List (String × String))
    (fetch : String → String → FetchOutcome) :
    List String → List FontResult → List String → List FontResult × List String
  | [], results, errors => (results, errors)
  | v :: rest, results, errors =>
    match List.lookup (normalizeVariant v) fileMap with
    | some url =>
      if url = "" then saveAtAux family fileStem fileMap fetch rest results errors
      else
        match fetch url (fileStem ++ "-" ++ normalizeVariant v) with
        | FetchOutcome.ok path =>
          saveAtAux family fileStem fileMap fetch rest
            (if path = "" then results
             else results ++ [⟨family, normalizeVariant v, path⟩]) errors
        | FetchOutcome.fail msg =>
          saveAtAux family fileStem fileMap fetch rest results (errors ++ [msg])
    | none => saveAtAux family fileStem fileMap fetch rest results errors

/-- From `src/lib/google-font.js`, `saveAtAsync` (given the already-resolved
file map): run the loop, then throw one AggregateError carrying the error
count and the partial results when at least one variant failed, else return
the results. -/
def saveAtAsync (family fileStem : String) (fileMap : List (String × String))
    (fetch : String → String → FetchOutcome) (variants : Option (List String)) :
    BatchOutcome :=
  let r := saveAtAux family fileStem fileMap fetch (requestedOf fileMap variants) [] []
  if r.2.length > 0 then BatchOutcome.aggErr r.2.length r.1 else BatchOutcome.ok r.1

/-- From `src/lib/google-font.js`, the loop body of `installAsync`: same walk
as `saveAtAsync`, but the catch block rethrows the error at once, so the
first per-variant failure ends the batch and discards the results so far. -/
def installAux (family fileStem : String) (fileMap : List (String × String))
    (fetch : String → String → FetchOutcome) :
    List String → List FontResult → BatchOutcome
  | [], results => BatchOutcome.ok results
  | v :: rest, results =>
    match List.lookup (normalizeVariant v) fileMap with
    | some url =>
      if url = "" then installAux family fileStem fileMap fetch rest results
      else
        match fetch url (fileStem ++ "-" ++ normalizeVariant v) with
        | FetchOutcome.ok path =>
          installAux family fileStem fileMap fetch rest
            (if path = "" then results
             else results ++ [⟨family, normalizeVariant v, path⟩])
        | FetchOutcome.fail msg => BatchOutcome.err msg
    | none => installAux family fileStem fileMap fetch rest results

/-- From `src/lib/google-font.js`, `installAsync` (given the already-resolved
file map). -/
def installAsync (family fileStem : String) (fileMap : List (String × String))
    (fetch : String → String → FetchOutcome) (variants : Option (List String)) :
    BatchOutcome :=
  installAux family fileStem fileMap fetch (requestedOf fileMap variants) []

/-- The URL a requested variant resolves to: the file-map entry of its
normalized id, with a falsy (empty) URL counting as no entry. -/
def urlFor (fileMap : List (String × String)) (v : String) : Option String :=
  match List.lookup (normalizeVariant v) fileMap with
  | some url => if url = "" then none else some url
  | none => none

/-- Specification-level description of the successful records of a batch:
one per requested variant, in requested order, whose normalized id resolves
and whose fetch succeeds with a truthy path. -/
def successResults (family fileStem : String) (fileMap : List (String × String))
    (fetch : String → String → FetchOutcome) (requested : List String) :
    List FontResult :=
  requested.filterMap (fun v =>
    match urlFor fileMap v with
    | some url =>
      match fetch url (fileStem ++ "-" ++ normalizeVariant v) with
      | FetchOutcome.ok path =>
        if path = "" then none else some ⟨family, normalizeVariant v, path⟩
      | FetchOutcome.fail _ => none
    | none => none)

/-- Specification-level description of the failure messages of a batch: one
per requested variant, in requested order, whose normalized id resolves and
whose fetch fails. -/
def failureMsgs (fileStem : String) (fileMap : List (String × String))
    (fetch : String → String → FetchOutcome) (requested : List String) :
    List String :=
  requested.filterMap (fun v =>
    match urlFor fileMap v with
    | some url =>
      match fetch url (fileStem ++ "-" ++ normalizeVariant v) with
      | FetchOutcome.ok _ => none
      | FetchOutcome.fail msg => some msg
    | none => none)

/-- The result records observable on a batch outcome (the return value, or
the partial results attached to an AggregateError; a plain thrown error
carries none). -/
def outcomeResults : BatchOutcome → List FontResult
  | BatchOutcome.ok rs => rs
  | BatchOutcome.err _ => []
  | BatchOutcome.aggErr _ rs => rs

theorem saveAtAux_eq (family fileStem : String) (fileMap : List (String × String))
    (fetch : String → String → FetchOutcome) :
    ∀ (requested : List String) (results : List FontResult) (errors : List String),
      saveAtAux family fileStem fileMap fetch requested results errors =
        (results ++ successResults family fileStem fileMap fetch requested,
         errors ++ failureMsgs fileStem fileMap fetch requested) := by
  intro requested
  induction requested with
  | nil => intro results errors; simp [saveAtAux, successResults, failureMsgs]
  | cons v rest ih =>
    intro results errors
    cases hl : List.lookup (normalizeVariant v) fileMap with
    | none =>
      simp [saveAtAux, successResults, failureMsgs, urlFor, hl, List.filterMap_cons, ih]
    | some url =>
      by_cases hu : url = ""
      · simp [saveAtAux, successResults, failureMsgs, urlFor, hl, hu, List.filterMap_cons, ih]
      · cases hf : fetch url (fileStem ++ "-" ++ normalizeVariant v) with
        | ok path =>
          by_cases hp : path = ""
          · simp [saveAtAux, successResults, failureMsgs, urlFor, hl, hu, hf, hp,
              List.filterMap_cons, ih]
          · simp [saveAtAux, successResults, failureMsgs, urlFor, hl, hu, hf, hp,
              List.filterMap_cons, ih]
        | fail msg =>
          simp [saveAtAux, successResults, failureMsgs, urlFor, hl, hu, hf,
            List.filterMap_cons, ih]

theorem installAux_eq (family fileStem : String) (fileMap : List (String × String))
    (fetch : String → String → FetchOutcome) :
    ∀ (requested : List String) (results : List FontResult),
      installAux family fileStem fileMap fetch requested results =
        (if failureMsgs fileStem fileMap fetch requested = []
         then BatchOutcome.ok (results ++ successResults family fileStem fileMap fetch requested)
         else BatchOutcome.err ((failureMsgs fileStem fileMap fetch requested).headD "")) := by
  intro requested
  induction requested with
  | nil => intro results; simp [installAux, successResults, failureMsgs]
  | cons v rest ih =>
    intro results
    cases hl : List.lookup (normalizeVariant v) fileMap with
    | none =>
      simp [installAux, successResults, failureMsgs, urlFor, hl, List.filterMap_cons, ih]
    | some url =>
      by_cases hu : url = ""
      · simp [installAux, successResults, failureMsgs, urlFor, hl, hu, List.filterMap_cons, ih]
      · cases hf : fetch url (fileStem ++ "-" ++ normalizeVariant v) with
        | ok path =>
          by_cases hp : path = ""
          · simp [installAux, successResults, failureMsgs, urlFor, hl, hu, hf, hp,
              List.filterMap_cons, ih]
          · simp [installAux, successResults, failureMsgs, urlFor, hl, hu, hf, hp,
              List.filterMap_cons, ih]
        | fail msg =>
          simp [installAux, successResults, failureMsgs, urlFor, hl, hu, hf,
            List.filterMap_cons]

/-- A three-variant file map used by the concrete batch scenarios of the
error-aggregation property. -/
def exFileMap : List (String × String) :=
  [("regular", "u1"), ("500", "u2"), ("700", "u3")]

/-- A fetch oracle where exactly the variant mapped to `u2` fails
validation and the other two place successfully. -/
def exFetchOneFail : String → String → FetchOutcome := fun url _ =>
  if url = "u2" then FetchOutcome.fail "Downloaded file is corrupted"
  else if url = "u1" then FetchOutcome.ok "p1"
  else FetchOutcome.ok "p3"

/-- C1 counterexample: over the batch regular, 500, 700 where exactly the
500 variant fails validation, `installAsync` throws the plain per-variant
error (aborting after it), not an aggregate error carrying the two
successful records as the claim states for it. -/
theorem C1_counterexample :
    installAsync "Fam" "Fam" exFileMap exFetchOneFail (some ["regular", "500", "700"]) =
      BatchOutcome.err "Downloaded file is corrupted" ∧
    installAsync "Fam" "Fam" exFileMap exFetchOneFail (some ["regular", "500", "700"]) ≠
      BatchOutcome.aggErr 1
        [⟨"Fam", "regular", "p1"⟩, ⟨"Fam", "700", "p3"⟩] := by
  decide

/-- C1 amended: for every batch, `saveAtAsync` collects all per-variant
failures without stopping, and ends in one aggregate error carrying the
failure count and the list of successful records when at least one variant
failed; `installAsync`, however, stops at the first per-variant failure and
propagates that single error with no aggregation and no attached partial
results. Concretely, a saveAtAsync batch of 3 variants with exactly one
validation failure yields one aggregate error with failure count 1 whose
attached partial-results list contains exactly the 2 successful records. -/
theorem C1_batch_failure_aggregation :
    (∀ (family fileStem : String) (fileMap : List (String × String))
        (fetch : String → String → FetchOutcome) (variants : Option (List String)),
      saveAtAsync family fileStem fileMap fetch variants =
        (if (failureMsgs fileStem fileMap fetch (requestedOf fileMap variants)).length > 0
         then BatchOutcome.aggErr
            (failureMsgs fileStem fileMap fetch (requestedOf fileMap variants)).length
            (successResults family fileStem fileMap fetch (requestedOf fileMap variants))
         else BatchOutcome.ok
            (successResults family fileStem fileMap fetch (requestedOf fileMap variants))) ∧
      installAsync family fileStem fileMap fetch variants =
        (if failureMsgs fileStem fileMap fetch (requestedOf fileMap variants) = []
         then BatchOutcome.ok
            (successResults family fileStem fileMap fetch (requestedOf fileMap variants))
         else BatchOutcome.err
            ((failureMsgs fileStem fileMap fetch (requestedOf fileMap variants)).headD ""))) ∧
    saveAtAsync "Fam" "Fam" exFileMap exFetchOneFail (some ["regular", "500", "700"]) =
      BatchOutcome.aggErr 1 [⟨"Fam", "regular", "p1"⟩, ⟨"Fam", "700", "p3"⟩] := by
  constructor
  · intro family fileStem fileMap fetch variants
    constructor
    · simp only [saveAtAsync, saveAtAux_eq, List.nil_append]
    · simp only [installAsync, installAux_eq, List.nil_append]
  · decide

/-- A fetch oracle where every download succeeds, giving `u1` the path `p1`
and everything else the path `p2`. -/
def exFetchAllOk : String → String → FetchOutcome := fun url _ =>
  if url = "u1" then FetchOutcome.ok "p1" else FetchOutcome.ok "p2"

/-- C5: the observable result records of a saveAtAsync batch are exactly the
per-variant successes in post-normalization requested order; a requested
variant whose normalized id has no file-map entry is silently skipped,
producing neither a record nor an error (removing it does not change the
outcome); and the concrete batch regular, bogus-variant, 700 against a map
holding only regular and 700 yields exactly the two records for regular then
700. -/
theorem C5_skip_and_order :
    (∀ (family fileStem : String) (fileMap : List (String × String))
        (fetch : String → String → FetchOutcome) (variants : Option (List String)),
      outcomeResults (saveAtAsync family fileStem fileMap fetch variants) =
        successResults family fileStem fileMap fetch (requestedOf fileMap variants)) ∧
    (∀ (family fileStem : String) (fileMap : List (String × String))
        (fetch : String → String → FetchOutcome) (pre post : List String) (v : String),
      urlFor fileMap v = none → pre ++ post ≠ [] →
      saveAtAsync family fileStem fileMap fetch (some (pre ++ v :: post)) =
        saveAtAsync family fileStem fileMap fetch (some (pre ++ post))) ∧
    saveAtAsync "Fam" "Fam" [("regular", "u1"), ("700", "u2")] exFetchAllOk
      (some ["regular", "bogus-variant", "700"]) =
      BatchOutcome.ok [⟨"Fam", "regular", "p1"⟩, ⟨"Fam", "700", "p2"⟩] := by
  refine ⟨?_, ?_, by decide⟩
  · intro family fileStem fileMap fetch variants
    simp only [saveAtAsync, saveAtAux_eq, List.nil_append]
    split
    · rfl
    · rfl
  · intro family fileStem fileMap fetch pre post v hv hne
    have hreq1 : requestedOf fileMap (some (pre ++ v :: post)) = pre ++ v :: post := by
      simp [requestedOf]
    have hreq2 : requestedOf fileMap (some (pre ++ post)) = pre ++ post := by
      simp [requestedOf, hne]
    simp only [saveAtAsync, saveAtAux_eq, List.nil_append, hreq1, hreq2,
      successResults, failureMsgs, List.filterMap_append, List.filterMap_cons, hv]

/-- Witness for C5: the silent-skip clause applied at the concrete
bogus-variant batch. -/
theorem C5_skip_and_order_witness :
    saveAtAsync "Fam" "Fam" [("regular", "u1"), ("700", "u2")] exFetchAllOk
      (some ["regular", "bogus-variant", "700"]) =
    saveAtAsync "Fam" "Fam" [("regular", "u1"), ("700", "u2")] exFetchAllOk
      (some ["regular", "700"]) :=
  C5_skip_and_order.2.1 "Fam" "Fam" [("regular", "u1"), ("700", "u2")] exFetchAllOk
    ["regular"] ["700"] "bogus-variant" (by decide) (by decide)

/-- The observable state of the catalog loader of
`src/lib/google-font-list.js`, instrumented for reasoning about traces:
`loadingPromise` is the cached in-flight operation (`_loadingPromise`,
identified by a number), `loading` mirrors `_loading`, `nextId` is the next
fresh operation identity, `returns` records the operation each `load()`
caller received, and `started` counts the underlying operations begun (each
performs exactly one fetch: a cache read possibly followed by the network
download). -/
structure LoaderTrace where
  loadingPromise : Option Nat
  loading : Bool
  nextId : Nat
  returns : List Nat
  started : Nat
  deriving Repr, DecidableEq

/-- From `GoogleFontList.prototype.load`: when an operation is in flight its
promise is returned unchanged and nothing new starts; otherwise a fresh
operation is created, cached, and returned. The body of `load()` up to the
return of the promise is synchronous, so the call is one atomic step of the
single-threaded event loop. -/
def loadCall (t : LoaderTrace) : LoaderTrace :=
  match t.loadingPromise with
  | some id => { t with returns := t.returns ++ [id] }
  | none =>
    { loadingPromise := some t.nextId, loading := true, nextId := t.nextId + 1,
      returns := t.returns ++ [t.nextId], started := t.started + 1 }

/-- The `finally` block of the in-flight operation: `_loading = false;
_loadingPromise = null`, run whether the operation succeeded or failed. -/
def opComplete (t : LoaderTrace) : LoaderTrace :=
  { t with loading := false, loadingPromise := none }

/-- The two kinds of loader step visible to the trace semantics. -/
inductive LoaderEvent
  | call
  | complete
  deriving Repr, DecidableEq

/-- Run a sequence of loader steps. -/
def runLoader : LoaderTrace → List LoaderEvent → LoaderTrace
  | t, [] => t
  | t, LoaderEvent.call :: es => runLoader (loadCall t) es
  | t, LoaderEvent.complete :: es => runLoader (opComplete t) es

theorem runLoader_calls_inflight (id : Nat) :
    ∀ (n : Nat) (t : LoaderTrace), t.loadingPromise = some id →
      runLoader t (List.replicate n LoaderEvent.call) =
        { t with returns := t.returns ++ List.replicate n id } := by
  intro n
  induction n with
  | zero => intro t ht; simp [runLoader, List.replicate]
  | succ m ih =>
    intro t ht
    have hc : loadCall t = { t with returns := t.returns ++ [id] } := by
      simp [loadCall, ht]
    rw [List.replicate_succ]
    simp only [runLoader, hc]
    rw [ih { t with returns := t.returns ++ [id] } ht]
    simp [List.replicate_succ, List.append_assoc]

/-- C2: single-flight loading. A load() call made while an operation is in
flight returns that same operation, starting nothing new; from the idle
state, any burst of load() calls all receive the one operation the first
call started, and exactly one underlying fetch is begun for the whole burst;
completion (success or failure) returns the loader to the idle state, after
which a load() call starts a fresh operation. -/
theorem C2_single_flight_load :
    (∀ (t : LoaderTrace) (id : Nat), t.loadingPromise = some id →
      (loadCall t).returns = t.returns ++ [id] ∧
      (loadCall t).started = t.started ∧
      (loadCall t).loadingPromise = some id) ∧
    (∀ (t : LoaderTrace) (n : Nat), t.loadingPromise = none →
      (runLoader t (List.replicate (n + 1) LoaderEvent.call)).returns =
        t.returns ++ List.replicate (n + 1) t.nextId ∧
      (runLoader t (List.replicate (n + 1) LoaderEvent.call)).started = t.started + 1) ∧
    (∀ t : LoaderTrace, (opComplete t).loadingPromise = none ∧
      (opComplete t).loading = false) ∧
    (∀ t : LoaderTrace, t.loadingPromise = none →
      (loadCall t).loadingPromise = some t.nextId ∧
      (loadCall t).started = t.started + 1 ∧
      (loadCall t).returns = t.returns ++ [t.nextId]) := by
  refine ⟨?_, ?_, ?_, ?_⟩
  · intro t id ht
    simp [loadCall, ht]
  · intro t n ht
    have hc : loadCall t =
        { loadingPromise := some t.nextId, loading := true, nextId := t.nextId + 1,
          returns := t.returns ++ [t.nextId], started := t.started + 1 } := by
      simp [loadCall, ht]
    rw [List.replicate_succ]
    simp only [runLoader, hc]
    rw [runLoader_calls_inflight t.nextId n _ rfl]
    simp [List.replicate_succ, List.append_assoc]
  · intro t
    simp [opComplete]
  · intro t ht
    simp [loadCall, ht]

/-- Witness for C2: three back-to-back load() calls from a fresh loader all
return operation 0 and start exactly one underlying fetch. -/
theorem C2_single_flight_load_witness :
    (runLoader ⟨none, false, 0, [], 0⟩ (List.replicate 3 LoaderEvent.call)).returns =
      [] ++ List.replicate 3 0 ∧
    (runLoader ⟨none, false, 0, [], 0⟩ (List.replicate 3 LoaderEvent.call)).started = 0 + 1 :=
  C2_single_flight_load.2.1 ⟨none, false, 0, [], 0⟩ 2 rfl

/-- The result of `JSON.parse` on the catalog response body, as
`parseRawData` distinguishes it: the parse throws, it yields a non-array
value, or it yields an array of raw records. -/
inductive RawParse
  | malformed
  | nonArrayValue
  | arrayValue (records : List String)
  deriving Repr, DecidableEq

/-- The observable effects of one `parseRawData` call: the records pushed
into the in-memory model by `populate`, the cache write performed (if any),
and whether an invalid-format `error` event (flagged `isInvalidJson`) or a
`success` event was emitted. -/
structure ParseEffects where
  populated : List String
  cacheWritten : Option (List String)
  errorEmitted : Bool
  successEmitted : Bool
  deriving Repr, DecidableEq

/-- From `src/lib/google-font-list.js`, `parseRawData`: a parse failure or a
non-array root emits the invalid-format error event and returns without
touching the model or the cache; an array is written to the cache and pushed
into the model by `populate`, which emits `success`. -/
def parseRawData : RawParse → ParseEffects
  | RawParse.malformed =>
    { populated := [], cacheWritten := none, errorEmitted := true, successEmitted := false }
  | RawParse.nonArrayValue =>
    { populated := [], cacheWritten := none, errorEmitted := true, successEmitted := false }
  | RawParse.arrayValue records =>
    { populated := records, cacheWritten := some records,
      errorEmitted := false, successEmitted := true }

/-- The value a `load()` promise settles with: `{ fromCache: boolean }` on
resolution, an error message on rejection. -/
structure LoadResultRec where
  fromCache : Bool
  deriving Repr, DecidableEq

/-- A settled `load()` operation together with the side effects of parsing. -/
structure LoadCompletion where
  outcome : Except String LoadResultRec
  effects : ParseEffects

/-- From `src/lib/google-font-list.js`, `downloadList`, at the point where
the transport delivered the body successfully: the success handler calls
`parseRawData(data)` and then resolves with `fromCache: false`
unconditionally — the promise is not rejected when parsing failed, the
failure travels only through the error event recorded in the effects. -/
def downloadListOnSuccess (raw : RawParse) : LoadCompletion :=
  { outcome := Except.ok { fromCache := false }, effects := parseRawData raw }

/-- C3 counterexample: on an unparsable catalog body the load() operation
still resolves successfully with fromCache false (the invalid-format
condition is emitted as an error event instead of failing the operation),
refuting the claim that the load fails for its caller. -/
theorem C3_counterexample :
    (downloadListOnSuccess RawParse.malformed).outcome =
      Except.ok { fromCache := false } ∧
    (downloadListOnSuccess RawParse.malformed).effects.errorEmitted = true :=
  ⟨rfl, rfl⟩

/-- C3 amended: when the catalog body is unparsable JSON or its root is not
an array, the condition is reported as an invalid-format error event while
the load() promise itself still resolves with fromCache false; the in-memory
model stays empty and the cache is not written — the cache is written only
after a successful parse of an array, and then with exactly the parsed
records. -/
theorem C3_invalid_format_load :
    (∀ raw : RawParse, raw = RawParse.malformed ∨ raw = RawParse.nonArrayValue →
      (downloadListOnSuccess raw).effects.errorEmitted = true ∧
      (downloadListOnSuccess raw).effects.successEmitted = false ∧
      (downloadListOnSuccess raw).effects.populated = [] ∧
      (downloadListOnSuccess raw).effects.cacheWritten = none ∧
      (downloadListOnSuccess raw).outcome = Except.ok { fromCache := false }) ∧
    (∀ (raw : RawParse) (l : List String),
      (downloadListOnSuccess raw).effects.cacheWritten = some l →
      raw = RawParse.arrayValue l) := by
  constructor
  · intro raw h
    rcases h with h | h <;> subst h <;> exact ⟨rfl, rfl, rfl, rfl, rfl⟩
  · intro raw l h
    cases raw with
    | malformed => cases h
    | nonArrayValue => cases h
    | arrayValue records =>
      simp only [downloadListOnSuccess, parseRawData, Option.some.injEq] at h
      rw [h]

/-- Witness for C3: the amended clauses applied at concrete parses. -/
theorem C3_invalid_format_load_witness :
    ((downloadListOnSuccess RawParse.nonArrayValue).effects.errorEmitted = true ∧
      (downloadListOnSuccess RawParse.nonArrayValue).effects.successEmitted = false ∧
      (downloadListOnSuccess RawParse.nonArrayValue).effects.populated = [] ∧
      (downloadListOnSuccess RawParse.nonArrayValue).effects.cacheWritten = none ∧
      (downloadListOnSuccess RawParse.nonArrayValue).outcome =
        Except.ok { fromCache := false }) ∧
    RawParse.arrayValue ["r"] = RawParse.arrayValue ["r"] :=
  ⟨C3_invalid_format_load.1 RawParse.nonArrayValue (Or.inr rfl),
    C3_invalid_format_load.2 (RawParse.arrayValue ["r"]) ["r"] rfl⟩

/-- One HTTP response as `handleResponse` inspects it: status code, optional
Location header, and the body text delivered on 200. -/
structure HttpResponse where
  status : Nat
  location : Option String
  body : String
  deriving Repr, DecidableEq

/-- The statuses of the redirect branch of `handleResponse`. -/
def isRedirect (s : Nat) : Bool :=
  s == 301 || s == 302 || s == 303 || s == 307 || s == 308

/-- The terminal outcome of one logical transport request: the `success`
event with the body text, or the `Bad response` error carrying the status. -/
inductive ReqOutcome
  | success (body : String)
  | failure (status : Nat)
  deriving Repr, DecidableEq

/-- From `src/lib/request.js`, the `init` / `handleResponse` recursion of
`Request`, with the network abstracted as a response oracle per absolute URL
and URL resolution (`new URL(location, originalUri)`) as a parameter. A
redirect status with a Location header and budget left re-issues the request
with the budget decremented; exhausted budget or a missing Location falls
through to the non-200 branch, as does any status other than 200. -/
def runRequest (resolve : String → String → String) (resp : String → HttpResponse) :
    Nat → String → ReqOutcome
  | budget, uri =>
    let r := resp uri
    if isRedirect r.status then
      match r.location with
      | some loc =>
        match budget with
        | b + 1 => runRequest resolve resp b (resolve loc uri)
        | 0 =>
          if r.status = 200 then ReqOutcome.success r.body else ReqOutcome.failure r.status
      | none =>
        if r.status = 200 then ReqOutcome.success r.body else ReqOutcome.failure r.status
    else
      if r.status = 200 then ReqOutcome.success r.body else ReqOutcome.failure r.status

theorem isRedirect_ne_200 (s : Nat) (h : isRedirect s = true) : s ≠ 200 := by
  simp only [isRedirect, Bool.or_eq_true, beq_iff_eq] at h
  omega

/-- The four-hop response oracle of the concrete redirect scenarios: `a`
through `c` redirect down the chain, `d` answers 200 in the length-3 chain.
All Location headers are absolute. -/
def chain3Resp : String → HttpResponse := fun u =>
  if u = "a" then ⟨301, some "b", ""⟩
  else if u = "b" then ⟨302, some "c", ""⟩
  else if u = "c" then ⟨307, some "d", ""⟩
  else if u = "d" then ⟨200, none, "ok"⟩
  else ⟨404, none, ""⟩

/-- The five-hop variant: `d` redirects once more, for a chain of length 4. -/
def chain4Resp : String → HttpResponse := fun u =>
  if u = "a" then ⟨301, some "b", ""⟩
  else if u = "b" then ⟨302, some "c", ""⟩
  else if u = "c" then ⟨307, some "d", ""⟩
  else if u = "d" then ⟨308, some "e", ""⟩
  else if u = "e" then ⟨200, none, "ok"⟩
  else ⟨404, none, ""⟩

/-- C4: on a response with status in 301, 302, 303, 307, 308 and a Location
header, remaining budget is decremented and the request re-issued against
the resolved URL; with the budget exhausted, or with no Location, the
redirect status falls through to non-200 handling and fails with that
status; and with the initial budget of 3, a redirect chain of length exactly
3 ending in 200 succeeds while a chain of length 4 fails. -/
theorem C4_redirect_budget :
    (∀ (resolve : String → String → String) (resp : String → HttpResponse)
        (b : Nat) (uri loc : String),
      isRedirect (resp uri).status = true → (resp uri).location = some loc →
      runRequest resolve resp (b + 1) uri = runRequest resolve resp b (resolve loc uri)) ∧
    (∀ (resolve : String → String → String) (resp : String → HttpResponse) (uri : String),
      isRedirect (resp uri).status = true →
      runRequest resolve resp 0 uri = ReqOutcome.failure (resp uri).status) ∧
    (∀ (resolve : String → String → String) (resp : String → HttpResponse)
        (b : Nat) (uri : String),
      isRedirect (resp uri).status = true → (resp uri).location = none →
      runRequest resolve resp b uri = ReqOutcome.failure (resp uri).status) ∧
    runRequest (fun loc _ => loc) chain3Resp 3 "a" = ReqOutcome.success "ok" ∧
    runRequest (fun loc _ => loc) chain4Resp 3 "a" = ReqOutcome.failure 308 := by
  refine ⟨?_, ?_, ?_, by decide, by decide⟩
  · intro resolve resp b uri loc hred hloc
    conv_lhs => rw [runRequest.eq_def]
    simp only [hred, if_true, hloc]
  · intro resolve resp uri hred
    conv_lhs => rw [runRequest.eq_def]
    simp only [hred, if_true]
    cases hloc : (resp uri).location with
    | none => simp [hloc, if_neg (isRedirect_ne_200 _ hred)]
    | some loc => simp [hloc, if_neg (isRedirect_ne_200 _ hred)]
  · intro resolve resp b uri hred hloc
    conv_lhs => rw [runRequest.eq_def]
    simp only [hred, if_true, hloc]
    simp [if_neg (isRedirect_ne_200 _ hred)]

/-- Witness for C4: the step clauses applied on the concrete chain. -/
theorem C4_redirect_budget_witness :
    runRequest (fun loc _ => loc) chain3Resp 3 "a" =
      runRequest (fun loc _ => loc) chain3Resp 2 "b" ∧
    runRequest (fun loc _ => loc) chain4Resp 0 "d" = ReqOutcome.failure 308 :=
  ⟨C4_redirect_budget.1 (fun loc _ => loc) chain3Resp 2 "a" "b" (by decide) (by decide),
    C4_redirect_budget.2.1 (fun loc _ => loc) chain4Resp "d" (by decide)⟩

/-- From `src/lib/google-font-list.js`, `searchFont` (the filtering of
`this.data`; the provenance tagging of the returned view is not needed for
the properties below): the token list is empty when the trimmed term is
empty, else the lowercased term split on single spaces; an entry passes when
the running conjunction over the tokens, seeded with the non-emptiness of
the token list, stays true. -/
def searchFont (data : List CatalogEntry) (term : String) (field : SearchField) :
    List CatalogEntry :=
  let searchTerms :=
    if (trimStr term).length > 0 then splitChar ' ' (toLowerStr term) else []
  data.filter (fun el =>
    searchTerms.foldl
      (fun found subTerm => found && strContainsSub (toLowerStr (fieldVal el field)) subTerm)
      (decide (searchTerms.length > 0)))

/-- Worker for `wsTokens`: split on whitespace, dropping empty fields. -/
def wsTokensAux : List Char → List Char → List String
  | [], acc => if acc.isEmpty then [] else [⟨acc.reverse⟩]
  | c :: rest, acc =>
    if c.isWhitespace then
      if acc.isEmpty then wsTokensAux rest []
      else ⟨acc.reverse⟩ :: wsTokensAux rest []
    else wsTokensAux rest (c :: acc)

/-- Whitespace tokenization: the maximal whitespace-free words of a string. -/
def wsTokens (s : String) : List String := wsTokensAux s.data []

/-- Modelled from the specification wording of the search contract, for
comparison with the source behaviour: tokenize the term on whitespace after
trimming and lowercasing; an empty-after-trim term matches nothing;
otherwise an entry is included iff the lowercased field value contains every
token as a substring. -/
def searchFontSpec (data : List CatalogEntry) (term : String) (field : SearchField) :
    List CatalogEntry :=
  if trimStr term = "" then []
  else
    data.filter (fun el =>
      (wsTokens (toLowerStr (trimStr term))).all
        (fun t => strContainsSub (toLowerStr (fieldVal el field)) t))

theorem foldl_and_false {α : Type} (p : α → Bool) :
    ∀ l : List α, l.foldl (fun b a => b && p a) false = false := by
  intro l
  induction l with
  | nil => rfl
  | cons a l ih => simpa [List.foldl] using ih

theorem foldl_and_all {α : Type} (p : α → Bool) :
    ∀ l : List α, l.foldl (fun b a => b && p a) true = l.all p := by
  intro l
  induction l with
  | nil => rfl
  | cons a l ih =>
    simp only [List.foldl, List.all_cons, Bool.true_and]
    cases h : p a
    · rw [foldl_and_false]
      simp
    · rw [ih]
      simp

theorem all_perm {α : Type} (p : α → Bool) {l1 l2 : List α} (h : l1.Perm l2) :
    l1.all p = l2.all p := by
  induction h with
  | nil => rfl
  | cons a _ ih => simp [List.all_cons, ih]
  | swap a b l => cases hp : p a <;> cases hq : p b <;> simp [List.all_cons, hp, hq]
  | trans _ _ ih1 ih2 => exact ih1.trans ih2

theorem splitCharAux_ne_nil (sep : Char) :
    ∀ (l acc : List Char), splitCharAux sep l acc ≠ [] := by
  intro l
  induction l with
  | nil => intro acc; simp [splitCharAux]
  | cons c rest ih =>
    intro acc
    simp only [splitCharAux]
    split
    · simp
    · exact ih (c :: acc)

theorem str_length_pos (s : String) (h : s ≠ "") : s.length > 0 := by
  cases s with
  | mk data =>
    cases data with
    | nil => exact absurd rfl h
    | cons c cs => simp [String.length]

theorem searchFont_empty_term (data : List CatalogEntry) (field : SearchField)
    (term : String) (h : trimStr term = "") : searchFont data term field = [] := by
  have hz : ("" : String).length = 0 := rfl
  simp [searchFont, h, hz]

theorem searchFont_filter_all (data : List CatalogEntry) (field : SearchField)
    (term : String) (h : trimStr term ≠ "") :
    searchFont data term field =
      data.filter (fun el =>
        (splitChar ' ' (toLowerStr term)).all
          (fun t => strContainsSub (toLowerStr (fieldVal el field)) t)) := by
  have hg : (trimStr term).length > 0 := str_length_pos _ h
  have hnn : splitChar ' ' (toLowerStr term) ≠ [] := splitCharAux_ne_nil ' ' _ []
  have hlen : (splitChar ' ' (toLowerStr term)).length > 0 := List.length_pos.mpr hnn
  simp only [searchFont]
  rw [if_pos hg]
  apply List.filter_congr
  intro el _
  rw [decide_eq_true hlen, foldl_and_all]

/-- The three-entry catalog of the end-to-end search scenario. -/
def catalog3 : List CatalogEntry :=
  [⟨"Source Code Pro", none⟩, ⟨"Source Sans Pro", none⟩, ⟨"Source Serif Pro", none⟩]

/-- C8 counterexample: the source splits the term on single space
characters, not on whitespace; with the term consisting of `foo`, a tab and
`bar`, both whitespace tokens occur in the entry `bar foo`, so the
claim-described behaviour includes the entry, while the code keeps the
tab-joined chunk as one token and excludes it. -/
theorem C8_counterexample :
    searchFont [⟨"bar foo", none⟩] "foo\tbar" SearchField.family = [] ∧
    searchFontSpec [⟨"bar foo", none⟩] "foo\tbar" SearchField.family =
      [⟨"bar foo", none⟩] := by
  decide

/-- C8 amended: the term is split on single space characters after
lowercasing but without prior trimming (the empty tokens produced by extra
spaces match every string, so only space-separated chunks matter); a term
that is empty after trimming yields an empty view regardless of catalog
contents; otherwise an entry is included iff the lowercased field value
(missing values read as the empty string) contains every space-token as a
substring, so the match is conjunctive and independent of token order, and
in particular the space-separated terms source sans and sans source yield
identical result sets. -/
theorem C8_search_tokenization :
    (∀ (data : List CatalogEntry) (field : SearchField) (term : String),
      trimStr term = "" → searchFont data term field = []) ∧
    (∀ (data : List CatalogEntry) (field : SearchField) (term : String),
      trimStr term ≠ "" →
      searchFont data term field =
        data.filter (fun el =>
          (splitChar ' ' (toLowerStr term)).all
            (fun t => strContainsSub (toLowerStr (fieldVal el field)) t))) ∧
    (∀ (data : List CatalogEntry) (field : SearchField) (t1 t2 : String),
      trimStr t1 ≠ "" → trimStr t2 ≠ "" →
      (splitChar ' ' (toLowerStr t1)).Perm (splitChar ' ' (toLowerStr t2)) →
      searchFont data t1 field = searchFont data t2 field) ∧
    searchFont catalog3 "source sans" SearchField.family =
      searchFont catalog3 "sans source" SearchField.family ∧
    searchFont catalog3 "source sans" SearchField.family =
      [⟨"Source Sans Pro", none⟩] := by
  refine ⟨searchFont_empty_term, searchFont_filter_all, ?_, by decide, by decide⟩
  intro data field t1 t2 h1 h2 hperm
  rw [searchFont_filter_all data field t1 h1, searchFont_filter_all data field t2 h2]
  apply List.filter_congr
  intro el _
  exact all_perm _ hperm

/-- Witness for C8: the empty-term clause applied on a whitespace-only term,
and the permutation clause applied on the two concrete reorderings. -/
theorem C8_search_tokenization_witness :
    searchFont [⟨"bar foo", none⟩] "   " SearchField.family = [] ∧
    searchFont catalog3 "sans  source" SearchField.family =
      searchFont catalog3 "source  sans" SearchField.family :=
  ⟨C8_search_tokenization.1 [⟨"bar foo", none⟩] SearchField.family "   " (by decide),
    C8_search_tokenization.2.2.1 catalog3 SearchField.family "sans  source" "source  sans"
      (by decide) (by decide) (by decide)⟩

end GFI
